import Mathlib

/-!
Verification of the deepsilk-frontend detection pipeline.

Shallow embedding of the frame-scheduling / inference / post-processing
core: IoU and non-max suppression (`src/utils/nms.ts` and the local copy in
`YoloVideoAnnotator.tsx`), the letterbox geometry and inverse mapping
(`src/services/inference.ts`), the raw-anchor output decoder, the mock
fallback of the inference service, the overlay renderer (`src/utils/draw.ts`)
and the two scheduler variants (seek-driven and clock-driven hooks).
JavaScript numbers are modelled by exact rationals; canvas drawing is
modelled as a trace of drawing commands; the async schedulers are modelled
as state-transition functions over explicit run state.
-/

namespace DeepSilk

/-- Axis-aligned box `[x1, y1, x2, y2]`, the `BBox` of `src/utils/nms.ts`. -/
structure BBox where
  x1 : ℚ
  y1 : ℚ
  x2 : ℚ
  y2 : ℚ
deriving DecidableEq

/-- A box is well-formed when it has positive width and height. -/
def wellFormed (a : BBox) : Prop := a.x1 < a.x2 ∧ a.y1 < a.y2

instance (a : BBox) : Decidable (wellFormed a) := by unfold wellFormed; infer_instance

/-- Area `(x2-x1)*(y2-y1)` of a box. -/
def boxArea (a : BBox) : ℚ := (a.x2 - a.x1) * (a.y2 - a.y1)

/-- Intersection-over-union from `src/utils/nms.ts` (`iou`): intersection
divided by `areaA + areaB - inter + 1e-6`. -/
def iou (a b : BBox) : ℚ :=
  let w := max 0 (min a.x2 b.x2 - max a.x1 b.x1)
  let h := max 0 (min a.y2 b.y2 - max a.y1 b.y1)
  let inter := w * h
  let union := boxArea a + boxArea b - inter + 1 / 1000000
  inter / union

/-- Detection box of the standalone `YoloVideoAnnotator.tsx` component. -/
structure YoloBox where
  x1 : ℚ
  y1 : ℚ
  x2 : ℚ
  y2 : ℚ
  score : ℚ
  classId : ℤ
deriving DecidableEq

/-- A Yolo box is well-formed when it has positive width and height. -/
def wellFormedY (a : YoloBox) : Prop := a.x1 < a.x2 ∧ a.y1 < a.y2

instance (a : YoloBox) : Decidable (wellFormedY a) := by unfold wellFormedY; infer_instance

/-- Area of a Yolo box. -/
def areaY (a : YoloBox) : ℚ := (a.x2 - a.x1) * (a.y2 - a.y1)

/-- Intersection-over-union from `YoloVideoAnnotator.tsx` (`iou`): no epsilon,
`union <= 0` yields `0`. -/
def iouTsx (a b : YoloBox) : ℚ :=
  let inter := max 0 (min a.x2 b.x2 - max a.x1 b.x1) * max 0 (min a.y2 b.y2 - max a.y1 b.y1)
  let union := areaY a + areaY b - inter
  if union ≤ 0 then 0 else inter / union

/-- Default box used to resolve list indexing (`boxes[i]` on in-range indices). -/
def dbox : BBox := ⟨0, 0, 0, 0⟩

/-- Suppression test applied by the `nms` loop of `src/utils/nms.ts` to a later
candidate `j` against the just-kept index `i`: `j` survives when the classes
differ or the IoU is at or below the threshold. -/
def keepTest (boxes : List BBox) (classes : List ℤ) (t : ℚ) (i j : ℕ) : Bool :=
  decide (classes.getD i 0 ≠ classes.getD j 0) ||
    decide (iou (boxes.getD i dbox) (boxes.getD j dbox) ≤ t)

/-- The `while (idxs.length)` loop of `nms` in `src/utils/nms.ts`: pop the
highest-scoring remaining index, keep it, and filter the rest by `keepTest`.
The fuel argument bounds the number of iterations; since each iteration
strictly shrinks the worklist, fuel `idxs.length` computes the loop exactly. -/
def nmsLoopF (boxes : List BBox) (classes : List ℤ) (t : ℚ) : ℕ → List ℕ → List ℕ
  | 0, _ => []
  | _ + 1, [] => []
  | fuel + 1, i :: idxs =>
      i :: nmsLoopF boxes classes t fuel (idxs.filter (keepTest boxes classes t i))

/-- Index sort of `nms`: `scores.map((s,i)=>i).sort((a,b)=>scores[b]-scores[a])`,
a stable sort of `[0, …, n-1]` by score descending. -/
def sortIdxs (scores : List ℚ) : List ℕ :=
  List.insertionSort (fun i j => scores.getD j 0 ≤ scores.getD i 0) (List.range scores.length)

/-- Greedy class-aware non-max suppression from `src/utils/nms.ts`; returns the
kept indices in score order. -/
def nms (boxes : List BBox) (scores : List ℚ) (classes : List ℤ) (t : ℚ) : List ℕ :=
  nmsLoopF boxes classes t (sortIdxs scores).length (sortIdxs scores)

/-- Accumulator loop of `nms` in `YoloVideoAnnotator.tsx`: a box is appended to
`selected` only if its IoU against every already-selected box is at or below
the threshold (the source breaks on `iou(box, sel) > iouThresh`). -/
def nmsTsxGo (t : ℚ) : List YoloBox → List YoloBox → List YoloBox
  | sel, [] => sel
  | sel, b :: rest =>
      if sel.all (fun s => decide (iouTsx b s ≤ t)) then nmsTsxGo t (sel ++ [b]) rest
      else nmsTsxGo t sel rest

/-- Class-agnostic non-max suppression of `YoloVideoAnnotator.tsx`: sort by
score descending, then greedily select. -/
def nmsTsx (boxes : List YoloBox) (t : ℚ) : List YoloBox :=
  nmsTsxGo t [] (List.insertionSort (fun a b => b.score ≤ a.score) boxes)

/-- JavaScript `Math.round`: round half up, i.e. `⌊q + 1/2⌋`. -/
def jsRound (q : ℚ) : ℤ := ⌊q + 1 / 2⌋

/-- Geometry part of `letterbox` in `src/services/inference.ts`: scale ratio
`r = min(size/w, size/h)`, scaled size rounded, and padding offsets
`dx = ⌊(size-nw)/2⌋`, `dy = ⌊(size-nh)/2⌋`. Returns `(ratio, dx, dy)`. -/
def letterboxGeom (w h size : ℚ) : ℚ × ℚ × ℚ :=
  let r := min (size / w) (size / h)
  let nw := jsRound (w * r)
  let nh := jsRound (h * r)
  let dx := ⌊(size - (nw : ℚ)) / 2⌋
  let dy := ⌊(size - (nh : ℚ)) / 2⌋
  (r, (dx : ℚ), (dy : ℚ))

/-- `scaleBack` from `src/services/inference.ts`: undo the letterbox, mapping a
model-space box back to original frame coordinates. -/
def scaleBack (b : BBox) (r dx dy : ℚ) : BBox :=
  ⟨(b.x1 - dx) / r, (b.y1 - dy) / r, (b.x2 - dx) / r, (b.y2 - dy) / r⟩

/-- Detection record of `src/services/inference.ts`. -/
structure Detection where
  cls : ℤ
  name : Option String
  conf : ℚ
  xyxy : BBox
deriving DecidableEq

/-- Inference options `{ conf, iou, names }` of `runOnnx`. -/
structure Opts where
  conf : ℚ
  iou : ℚ
  names : Option (List String)

/-- Best-class scan of `parseOutput`: fold over class channels `5..C-1`
starting from `(bestC, bestP) = (-1, 0)`, updating on `p > bestP`. -/
def bestClass (arr : ℕ → ℚ) (off C : ℕ) : ℤ × ℚ :=
  (List.range' 5 (C - 5)).foldl
    (fun acc c => if acc.2 < arr (off + c) then ((c : ℤ) - 5, arr (off + c)) else acc)
    (-1, 0)

/-- One row of the raw-anchor decode loop in `parseOutput`: skip rows with
non-positive objectness or score below the confidence threshold, otherwise
convert center-size to corners in model space. -/
def decodeRow (arr : ℕ → ℚ) (C : ℕ) (confThresh : ℚ) (i : ℕ) :
    Option (BBox × ℚ × ℤ) :=
  let off := i * C
  let x := arr off
  let y := arr (off + 1)
  let w := arr (off + 2)
  let h := arr (off + 3)
  let obj := arr (off + 4)
  if obj ≤ 0 then none
  else
    let bc := bestClass arr off C
    let score := obj * bc.2
    if score < confThresh then none
    else some (⟨x - w / 2, y - h / 2, x + w / 2, y + h / 2⟩, score, bc.1)

/-- Candidate accumulation loop of `parseOutput` over the `N` rows. -/
def parseCandidates (arr : ℕ → ℚ) (N C : ℕ) (confThresh : ℚ) :
    List (BBox × ℚ × ℤ) :=
  (List.range N).filterMap (decodeRow arr C confThresh)

/-- Class-name lookup `names?.[classes[k]]` of `parseOutput`. -/
def nameLookup (names : Option (List String)) (cls : ℤ) : Option String :=
  names.bind (fun ns => if 0 ≤ cls then ns.get? cls.toNat else none)

/-- `parseOutput` from `src/services/inference.ts`: decode the raw `[1,N,C]`
tensor (given as a flat array `arr`), run NMS in model space, undo the
letterbox with `scaleBack`, and clamp every coordinate to `max 0 _`. -/
def parseOutput (arr : ℕ → ℚ) (N C : ℕ) (confThresh iouThresh r dx dy : ℚ)
    (names : Option (List String)) : List Detection :=
  let cands := parseCandidates arr N C confThresh
  let boxes := cands.map (·.1)
  let scores := cands.map (·.2.1)
  let classes := cands.map (·.2.2)
  let keep := nms boxes scores classes iouThresh
  keep.map (fun k =>
    let sb := scaleBack (boxes.getD k dbox) r dx dy
    { cls := classes.getD k 0
      name := nameLookup names (classes.getD k 0)
      conf := scores.getD k 0
      xyxy := ⟨max 0 sb.x1, max 0 sb.y1, max 0 sb.x2, max 0 sb.y2⟩ })

/-- `generateMockDetections` from `src/services/inference.ts`. The sequence of
`Math.random()` draws is modelled by `rnd : ℕ → ℚ` giving the value of the
k-th call: call 0 picks the count, and detection `i` consumes calls
`1+6i .. 6+6i` in source order (x1, y1, x2, y2, class, confidence). -/
def generateMockDetections (w h : ℚ) (opts : Opts) (rnd : ℕ → ℚ) : List Detection :=
  let numDetections := (⌊rnd 0 * 3⌋).toNat + 1
  (List.range numDetections).map (fun i =>
    let b := 1 + 6 * i
    let x1 := rnd b * (w * (6 / 10))
    let y1 := rnd (b + 1) * (h * (6 / 10))
    let x2 := x1 + rnd (b + 2) * (w * (3 / 10)) + 50
    let y2 := y1 + rnd (b + 3) * (h * (3 / 10)) + 50
    let mockClasses := opts.names.getD ["person", "car", "dog", "cat", "bird"]
    let cls := (⌊rnd (b + 4) * mockClasses.length⌋).toNat
    { cls := (cls : ℤ)
      name := some (mockClasses.getD cls ("class_" ++ toString cls))
      conf := opts.conf + rnd (b + 5) * (1 - opts.conf)
      xyxy := ⟨max 0 x1, max 0 y1, min w x2, min h y2⟩ })

/-- The engine session, abstracted to the input metadata that `loadSession`
extracts from it (input tensor name and square input size). -/
structure Session where
  inputName : String
  inputSize : ℕ
deriving DecidableEq

/-- Module-level singleton state of `src/services/inference.ts`:
`session`, `inputName`, `inputSize`. -/
structure SessionState where
  session : Option Session
  inputName : String
  inputSize : ℕ
deriving DecidableEq

/-- `loadSession` from `src/services/inference.ts`. The engine's
`InferenceSession.create` for a given URL is modelled by `attempt`; the
`try/catch` catches every load failure, leaves `session` null and returns
normally, so the result is always `.ok`. An existing session short-circuits
before any load attempt. -/
def loadSession (st : SessionState) (modelUrl : String)
    (attempt : String → Except String Session) : Except String SessionState :=
  if st.session.isSome then .ok st
  else
    match attempt modelUrl with
    | .ok s => .ok { session := some s, inputName := s.inputName, inputSize := s.inputSize }
    | .error _ => .ok { st with session := none }

/-- `runOnnx` from `src/services/inference.ts`: with no session (demo mode) it
returns mock detections; with a session it letterboxes the `w × h` frame to
`inputSize`, runs the engine (modelled by `engine`, whose rejection is
propagated) and decodes via `parseOutput`. -/
def runOnnx (st : SessionState) (w h : ℚ) (opts : Opts) (rnd : ℕ → ℚ)
    (engine : Except String (ℕ → ℚ)) (N C : ℕ) : Except String (List Detection) :=
  match st.session with
  | none => .ok (generateMockDetections w h opts rnd)
  | some _ =>
      let g := letterboxGeom w h (st.inputSize : ℚ)
      match engine with
      | .error e => .error e
      | .ok arr => .ok (parseOutput arr N C opts.conf opts.iou g.1 g.2.1 g.2.2 opts.names)

/-- Canvas 2D operations issued by `drawDetections`, recorded as a trace. -/
inductive DrawCmd where
  | clearRect (x y w h : ℚ)
  | setLineWidth (n : ℚ)
  | setFont (f : String)
  | setStrokeStyle (s : String)
  | setFillStyle (s : String)
  | fillRect (x y w h : ℚ)
  | strokeRect (x y w h : ℚ)
  | fillText (s : String) (x y : ℚ)
deriving DecidableEq

/-- ECMAScript `Number.prototype.toFixed(f)` for non-negative finite inputs
and `f ≥ 1`: the integer `n` closest to `q·10^f` (ties upward), printed with
`f` fractional digits. -/
def toFixed (f : ℕ) (q : ℚ) : String :=
  let n := (⌊q * (10 : ℚ) ^ f + 1 / 2⌋).toNat
  let ip := n / 10 ^ f
  let fp := n % 10 ^ f
  let s := toString fp
  toString ip ++ "." ++ String.mk (List.replicate (f - s.length) '0') ++ s

/-- Label text built by `drawDetections`:
`` `${d.name ?? d.cls} ${d.conf.toFixed(2)}` ``. -/
def labelOf (d : Detection) : String :=
  (match d.name with
    | some n => n
    | none => toString d.cls) ++ " " ++ toFixed 2 d.conf

/-- Commands issued for a single detection in the `drawDetections` loop.
`measure` models `ctx.measureText(label).width`. -/
def drawOne (measure : String → ℚ) (d : Detection) : List DrawCmd :=
  let x1 := d.xyxy.x1
  let y1 := d.xyxy.y1
  let x2 := d.xyxy.x2
  let y2 := d.xyxy.y2
  [.setStrokeStyle "rgba(110,231,183,1)",
   .setFillStyle "rgba(110,231,183,.24)",
   .fillRect x1 y1 (x2 - x1) (y2 - y1),
   .strokeRect x1 y1 (x2 - x1) (y2 - y1),
   .setFillStyle "rgba(15,18,26,.9)",
   .fillRect x1 (max 0 (y1 - 16)) (measure (labelOf d) + 4 * 2) 16,
   .setFillStyle "#fff",
   .fillText (labelOf d) (x1 + 4) (max 10 (y1 - 4))]

/-- `drawDetections` from `src/utils/draw.ts` as a command trace over a
`W × H` canvas: a full-canvas clear, the shared line width and font, then the
per-box commands in order. -/
def drawDetections (W H : ℚ) (measure : String → ℚ) (boxes : List Detection) :
    List DrawCmd :=
  DrawCmd.clearRect 0 0 W H :: DrawCmd.setLineWidth 2 ::
    DrawCmd.setFont "12px ui-sans-serif, system-ui" ::
      (boxes.map (drawOne measure)).flatten

/-- Boolean test that `pat` occurs at the start of `l`. -/
def startsWith : List Char → List Char → Bool
  | [], _ => true
  | _ :: _, [] => false
  | p :: ps, c :: cs => p == c && startsWith ps cs

/-- Boolean test that `pat` occurs contiguously somewhere in `l`. -/
def subStr (pat : List Char) : List Char → Bool
  | [] => pat.isEmpty
  | c :: rest => startsWith pat (c :: rest) || subStr pat rest

/-- Result of one awaited inference call, as seen by a scheduler tick. -/
inductive InferResult where
  | ok (dets : List Detection)
  | err

/-- Model-space to overlay-space scaling shared by both hook variants:
`(x / MODEL_SIZE) * overlay.width` per coordinate. -/
def scaleToOverlay (msize ow oh : ℚ) (d : Detection) : Detection :=
  { d with
    xyxy := ⟨d.xyxy.x1 / msize * ow, d.xyxy.y1 / msize * oh,
             d.xyxy.x2 / msize * ow, d.xyxy.y2 / msize * oh⟩ }

/-- Run state of the seek-driven hook (`useAnnotator` with a `seeked`-chained
loop): `isRunningRef`, `isProcessingRef`, `video.currentTime`, the progress
percentage, and `lastDetectionsRef`. -/
structure SeekState where
  running : Bool
  processing : Bool
  time : ℚ
  progress : ℤ
  lastDets : List Detection
deriving DecidableEq

/-- One complete execution of `processCurrentFrame` in the seek-driven hook,
for a video of duration `dur`: guards in source order (`isRunningRef`,
`duration === 0`, end-of-video, `isProcessingRef`), then the awaited
inference with outcome `res`. The catch block stops the run; the finally
block clears the busy flag. The boolean reports whether inference was
dispatched. -/
def seekTick (dur fps msize ow oh : ℚ) (res : InferResult) (s : SeekState) :
    SeekState × Bool :=
  if s.running = false then (s, false)
  else if dur = 0 then (s, false)
  else if dur ≤ s.time then ({ s with running := false }, false)
  else if s.processing = true then (s, false)
  else
    match res with
    | .err => ({ s with running := false, processing := false }, true)
    | .ok dets =>
        let scaled := dets.map (scaleToOverlay msize ow oh)
        let pct := if 0 < dur then min 100 (jsRound (s.time / dur * 100)) else 0
        let nextTime := s.time + 1 / fps
        if nextTime < dur ∧ s.running = true then
          ({ s with lastDets := scaled, progress := pct, time := nextTime,
                    processing := false }, true)
        else
          ({ s with lastDets := scaled, progress := pct, running := false,
                    processing := false }, true)

/-- Overwrite-or-append on the timestamp-keyed detections cache, modelling
assignment to `detectionsCache.current[timestamp]`. -/
def upsert (k : ℚ) (v : List Detection) : List (ℚ × List Detection) → List (ℚ × List Detection)
  | [] => [(k, v)]
  | (k', v') :: rest => if k = k' then (k, v) :: rest else (k', v') :: upsert k v rest

/-- Run state of the clock-driven hook (`useAnnotator` with a
`setInterval(captureAndProcess, 1000/fps)` timer): playback flags, the
`isProcessingRef` busy flag, `video.currentTime`, the detections cache and the
progress percentage. -/
structure ClockState where
  paused : Bool
  ended : Bool
  processing : Bool
  time : ℚ
  cache : List (ℚ × List Detection)
  progress : ℤ

/-- One complete execution of `captureAndProcess` in the clock-driven hook:
guards in source order (`paused || ended`, `isProcessingRef`), then the
awaited inference with outcome `res`. The catch block only logs, so an error
leaves the state unchanged once the finally block clears the busy flag; a
success caches the scaled detections under the rounded timestamp and updates
progress. The boolean reports whether inference was dispatched. -/
def clockTick (fps msize ow oh dur : ℚ) (res : InferResult) (c : ClockState) :
    ClockState × Bool :=
  if c.paused = true ∨ c.ended = true then (c, false)
  else if c.processing = true then (c, false)
  else
    match res with
    | .err => (c, true)
    | .ok dets =>
        let scaled := dets.map (scaleToOverlay msize ow oh)
        let ts := ((jsRound (c.time * fps) : ℚ)) / fps
        let cache := upsert ts scaled c.cache
        let pct :=
          if dur ≠ 0 then min 100 (jsRound (((cache.length : ℚ) / fps) / dur * 100))
          else c.progress
        ({ c with cache := cache, progress := pct }, true)

/-- Busy-flag state shared by both tick handlers at the granularity of the
async boundary: the `isProcessingRef` flag, and the number of inference calls
started but not yet settled. -/
structure BusyState where
  busy : Bool
  inFlight : ℕ

/-- Events at the async granularity of the shared guard/finally skeleton
(`if (isProcessingRef.current) return; isProcessingRef.current = true; …
finally { isProcessingRef.current = false }`): `start` is a tick reaching the
guard, `finish` is an in-flight inference settling (the finally block). -/
inductive BusyEv where
  | start
  | finish

/-- One busy-flag transition; the boolean reports whether a new inference was
dispatched. A tick arriving while busy returns the state unchanged. -/
def busyStep (s : BusyState) : BusyEv → BusyState × Bool
  | .start =>
      if s.busy = true then (s, false)
      else ({ busy := true, inFlight := s.inFlight + 1 }, true)
  | .finish => ({ busy := false, inFlight := s.inFlight - 1 }, false)

/-- Iterated busy-flag transitions over a sequence of events. -/
def busyRun (s : BusyState) : List BusyEv → BusyState
  | [] => s
  | e :: evs => busyRun (busyStep s e).1 evs

/-- Busy-flag invariant: inference calls in flight never exceed the flag. -/
def busyInv (s : BusyState) : Prop := s.inFlight ≤ if s.busy = true then 1 else 0

/-- Example raw tensor (one row, one class): `[cx, cy, w, h, obj, p0]` flat. -/
def exArr : ℕ → ℚ := fun k => [100, 100, 50, 50, 9/10, 9/10].getD k 0

/-! Helper lemmas. -/

theorem iou_comm (a b : BBox) : iou a b = iou b a := by
  simp only [iou, boxArea]
  rw [min_comm a.x2 b.x2, max_comm a.x1 b.x1, min_comm a.y2 b.y2, max_comm a.y1 b.y1]
  ring_nf

theorem iouTsx_comm (a b : YoloBox) : iouTsx a b = iouTsx b a := by
  simp only [iouTsx, areaY]
  rw [min_comm a.x2 b.x2, max_comm a.x1 b.x1, min_comm a.y2 b.y2, max_comm a.y1 b.y1]
  ring_nf

theorem iou_nonneg_lt_one (a b : BBox) (ha : wellFormed a) (hb : wellFormed b) :
    0 ≤ iou a b ∧ iou a b < 1 := by
  obtain ⟨hax, hay⟩ := ha
  obtain ⟨hbx, hby⟩ := hb
  simp only [iou, boxArea]
  set w := max 0 (min a.x2 b.x2 - max a.x1 b.x1) with hw
  set h := max 0 (min a.y2 b.y2 - max a.y1 b.y1) with hh
  have hw0 : 0 ≤ w := le_max_left _ _
  have hh0 : 0 ≤ h := le_max_left _ _
  have hwa : w ≤ a.x2 - a.x1 := by
    apply max_le (by linarith)
    have h1 := min_le_left a.x2 b.x2
    have h2 := le_max_left a.x1 b.x1
    linarith
  have hwb : w ≤ b.x2 - b.x1 := by
    apply max_le (by linarith)
    have h1 := min_le_right a.x2 b.x2
    have h2 := le_max_right a.x1 b.x1
    linarith
  have hha : h ≤ a.y2 - a.y1 := by
    apply max_le (by linarith)
    have h1 := min_le_left a.y2 b.y2
    have h2 := le_max_left a.y1 b.y1
    linarith
  have hhb : h ≤ b.y2 - b.y1 := by
    apply max_le (by linarith)
    have h1 := min_le_right a.y2 b.y2
    have h2 := le_max_right a.y1 b.y1
    linarith
  have hIA : w * h ≤ (a.x2 - a.x1) * (a.y2 - a.y1) :=
    mul_le_mul hwa hha hh0 (by linarith)
  have hIB : w * h ≤ (b.x2 - b.x1) * (b.y2 - b.y1) :=
    mul_le_mul hwb hhb hh0 (by linarith)
  have hA : 0 < (a.x2 - a.x1) * (a.y2 - a.y1) := mul_pos (by linarith) (by linarith)
  have hU : 0 < (a.x2 - a.x1) * (a.y2 - a.y1) + (b.x2 - b.x1) * (b.y2 - b.y1)
      - w * h + 1 / 1000000 := by linarith
  constructor
  · exact div_nonneg (mul_nonneg hw0 hh0) hU.le
  · rw [div_lt_one hU]
    linarith

theorem iou_self (a : BBox) (ha : wellFormed a) :
    iou a a = boxArea a / (boxArea a + 1 / 1000000) := by
  obtain ⟨hax, hay⟩ := ha
  simp only [iou, boxArea, min_self, max_self]
  rw [max_eq_right (by linarith : (0 : ℚ) ≤ a.x2 - a.x1),
    max_eq_right (by linarith : (0 : ℚ) ≤ a.y2 - a.y1)]
  ring_nf

theorem iou_degenerate (a b : BBox) (h : a.x2 = a.x1 ∨ a.y2 = a.y1) : iou a b = 0 := by
  simp only [iou, boxArea]
  rcases h with h | h
  · have hw : max 0 (min a.x2 b.x2 - max a.x1 b.x1) = 0 := by
      apply max_eq_left
      have h1 := min_le_left a.x2 b.x2
      have h2 := le_max_left a.x1 b.x1
      linarith
    rw [hw, zero_mul, zero_div]
  · have hh : max 0 (min a.y2 b.y2 - max a.y1 b.y1) = 0 := by
      apply max_eq_left
      have h1 := min_le_left a.y2 b.y2
      have h2 := le_max_left a.y1 b.y1
      linarith
    rw [hh, mul_zero, zero_div]

theorem iouTsx_nonneg_le_one (a b : YoloBox) (ha : wellFormedY a) (hb : wellFormedY b) :
    0 ≤ iouTsx a b ∧ iouTsx a b ≤ 1 := by
  obtain ⟨hax, hay⟩ := ha
  obtain ⟨hbx, hby⟩ := hb
  simp only [iouTsx, areaY]
  set w := max 0 (min a.x2 b.x2 - max a.x1 b.x1) with hw
  set h := max 0 (min a.y2 b.y2 - max a.y1 b.y1) with hh
  have hw0 : 0 ≤ w := le_max_left _ _
  have hh0 : 0 ≤ h := le_max_left _ _
  have hwa : w ≤ a.x2 - a.x1 := by
    apply max_le (by linarith)
    have h1 := min_le_left a.x2 b.x2
    have h2 := le_max_left a.x1 b.x1
    linarith
  have hwb : w ≤ b.x2 - b.x1 := by
    apply max_le (by linarith)
    have h1 := min_le_right a.x2 b.x2
    have h2 := le_max_right a.x1 b.x1
    linarith
  have hha : h ≤ a.y2 - a.y1 := by
    apply max_le (by linarith)
    have h1 := min_le_left a.y2 b.y2
    have h2 := le_max_left a.y1 b.y1
    linarith
  have hhb : h ≤ b.y2 - b.y1 := by
    apply max_le (by linarith)
    have h1 := min_le_right a.y2 b.y2
    have h2 := le_max_right a.y1 b.y1
    linarith
  have hIA : w * h ≤ (a.x2 - a.x1) * (a.y2 - a.y1) :=
    mul_le_mul hwa hha hh0 (by linarith)
  have hIB : w * h ≤ (b.x2 - b.x1) * (b.y2 - b.y1) :=
    mul_le_mul hwb hhb hh0 (by linarith)
  split_ifs with hu
  · exact ⟨le_refl 0, by norm_num⟩
  · push_neg at hu
    constructor
    · exact div_nonneg (mul_nonneg hw0 hh0) hu.le
    · rw [div_le_one hu]
      linarith

theorem iouTsx_self (a : YoloBox) (ha : wellFormedY a) : iouTsx a a = 1 := by
  obtain ⟨hax, hay⟩ := ha
  have hA : 0 < areaY a := mul_pos (by linarith) (by linarith)
  simp only [iouTsx, areaY, min_self, max_self]
  rw [max_eq_right (by linarith : (0 : ℚ) ≤ a.x2 - a.x1),
    max_eq_right (by linarith : (0 : ℚ) ≤ a.y2 - a.y1)]
  have he : (a.x2 - a.x1) * (a.y2 - a.y1) + (a.x2 - a.x1) * (a.y2 - a.y1)
      - (a.x2 - a.x1) * (a.y2 - a.y1) = (a.x2 - a.x1) * (a.y2 - a.y1) := by ring
  rw [he, if_neg (not_le.mpr (by simpa [areaY] using hA))]
  exact div_self (by simpa [areaY] using hA.ne')

theorem iouTsx_degenerate (a b : YoloBox) (h : a.x2 = a.x1 ∨ a.y2 = a.y1) :
    iouTsx a b = 0 := by
  simp only [iouTsx, areaY]
  have hz : max 0 (min a.x2 b.x2 - max a.x1 b.x1) * max 0 (min a.y2 b.y2 - max a.y1 b.y1) = 0 := by
    rcases h with h | h
    · have hw : max 0 (min a.x2 b.x2 - max a.x1 b.x1) = 0 := by
        apply max_eq_left
        have h1 := min_le_left a.x2 b.x2
        have h2 := le_max_left a.x1 b.x1
        linarith
      rw [hw, zero_mul]
    · have hh : max 0 (min a.y2 b.y2 - max a.y1 b.y1) = 0 := by
        apply max_eq_left
        have h1 := min_le_left a.y2 b.y2
        have h2 := le_max_left a.y1 b.y1
        linarith
      rw [hh, mul_zero]
  rw [hz]
  split_ifs <;> simp

theorem nmsLoopF_subset (boxes : List BBox) (classes : List ℤ) (t : ℚ) :
    ∀ (fuel : ℕ) (idxs : List ℕ), nmsLoopF boxes classes t fuel idxs ⊆ idxs := by
  intro fuel
  induction fuel with
  | zero => intro idxs j hj; simp [nmsLoopF] at hj
  | succ n ih =>
    intro idxs j hj
    cases idxs with
    | nil => simp [nmsLoopF] at hj
    | cons i rest =>
      rw [nmsLoopF] at hj
      rcases List.mem_cons.mp hj with h | h
      · exact h ▸ List.mem_cons_self i rest
      · exact List.mem_cons_of_mem i (List.mem_of_mem_filter (ih _ h))

theorem nmsLoopF_nodup (boxes : List BBox) (classes : List ℤ) (t : ℚ) :
    ∀ (fuel : ℕ) (idxs : List ℕ), idxs.Nodup → (nmsLoopF boxes classes t fuel idxs).Nodup := by
  intro fuel
  induction fuel with
  | zero => intro idxs _; simp [nmsLoopF]
  | succ n ih =>
    intro idxs h
    cases idxs with
    | nil => simp [nmsLoopF]
    | cons i rest =>
      rw [nmsLoopF]
      rcases List.nodup_cons.mp h with ⟨hi, hrest⟩
      refine List.nodup_cons.mpr ⟨?_, ih _ (hrest.filter _)⟩
      intro hmem
      exact hi (List.mem_of_mem_filter (nmsLoopF_subset boxes classes t n _ hmem))

theorem nmsLoopF_pairwise (boxes : List BBox) (classes : List ℤ) (t : ℚ) :
    ∀ (fuel : ℕ) (idxs : List ℕ),
      (nmsLoopF boxes classes t fuel idxs).Pairwise
        (fun i j => keepTest boxes classes t i j = true) := by
  intro fuel
  induction fuel with
  | zero => intro idxs; simp [nmsLoopF]
  | succ n ih =>
    intro idxs
    cases idxs with
    | nil => simp [nmsLoopF]
    | cons i rest =>
      rw [nmsLoopF]
      refine List.pairwise_cons.mpr ⟨?_, ih _⟩
      intro j hj
      exact List.of_mem_filter (nmsLoopF_subset boxes classes t n _ hj)

theorem nmsLoopF_removed (boxes : List BBox) (classes : List ℤ) (t : ℚ) :
    ∀ (fuel : ℕ) (idxs : List ℕ) (j : ℕ), idxs.length ≤ fuel →
      j ∈ idxs → j ∉ nmsLoopF boxes classes t fuel idxs →
      ∃ i ∈ nmsLoopF boxes classes t fuel idxs,
        classes.getD i 0 = classes.getD j 0 ∧
          t < iou (boxes.getD i dbox) (boxes.getD j dbox) := by
  intro fuel
  induction fuel with
  | zero =>
    intro idxs j hlen hj _
    rw [List.length_eq_zero.mp (Nat.le_zero.mp hlen)] at hj
    simp at hj
  | succ n ih =>
    intro idxs j hlen hj hnot
    cases idxs with
    | nil => simp at hj
    | cons i rest =>
      rw [nmsLoopF] at hnot ⊢
      have hji : j ≠ i := by
        rintro rfl
        exact hnot (List.mem_cons_self _ _)
      have hjrest : j ∈ rest := (List.mem_cons.mp hj).resolve_left hji
      by_cases hkp : keepTest boxes classes t i j = true
      · have hjf : j ∈ rest.filter (keepTest boxes classes t i) :=
          List.mem_filter.mpr ⟨hjrest, hkp⟩
        have hlen' : (rest.filter (keepTest boxes classes t i)).length ≤ n :=
          le_trans (List.length_filter_le _ _)
            (Nat.succ_le_succ_iff.mp (by simpa using hlen))
        have hnot' : j ∉ nmsLoopF boxes classes t n (rest.filter (keepTest boxes classes t i)) :=
          fun h => hnot (List.mem_cons_of_mem _ h)
        obtain ⟨m, hm, hcls, hiou⟩ := ih _ j hlen' hjf hnot'
        exact ⟨m, List.mem_cons_of_mem _ hm, hcls, hiou⟩
      · simp only [keepTest, Bool.or_eq_true, decide_eq_true_eq, not_or, not_not,
          not_le] at hkp
        exact ⟨i, List.mem_cons_self _ _, hkp.1, hkp.2⟩

theorem nmsLoopF_of_compat (boxes : List BBox) (classes : List ℤ) (t : ℚ) :
    ∀ (fuel : ℕ) (idxs : List ℕ), idxs.length ≤ fuel → idxs.Nodup →
      (∀ i ∈ idxs, ∀ j ∈ idxs, i ≠ j → keepTest boxes classes t i j = true) →
      nmsLoopF boxes classes t fuel idxs = idxs := by
  intro fuel
  induction fuel with
  | zero =>
    intro idxs hlen _ _
    rw [List.length_eq_zero.mp (Nat.le_zero.mp hlen)]
    rfl
  | succ n ih =>
    intro idxs hlen hnd hcompat
    cases idxs with
    | nil => rfl
    | cons i rest =>
      rcases List.nodup_cons.mp hnd with ⟨hi, hrest⟩
      have hfil : rest.filter (keepTest boxes classes t i) = rest := by
        rw [List.filter_eq_self]
        intro j hj
        exact hcompat i (List.mem_cons_self _ _) j (List.mem_cons_of_mem _ hj)
          (fun h => hi (h ▸ hj))
      rw [nmsLoopF, hfil, ih rest (Nat.succ_le_succ_iff.mp (by simpa using hlen)) hrest
        (fun a ha b hb hab =>
          hcompat a (List.mem_cons_of_mem _ ha) b (List.mem_cons_of_mem _ hb) hab)]

theorem sortIdxs_perm (scores : List ℚ) :
    (sortIdxs scores).Perm (List.range scores.length) :=
  List.perm_insertionSort _ _

theorem mem_sortIdxs (scores : List ℚ) (k : ℕ) : k ∈ sortIdxs scores ↔ k < scores.length := by
  rw [(sortIdxs_perm scores).mem_iff, List.mem_range]

theorem sortIdxs_nodup (scores : List ℚ) : (sortIdxs scores).Nodup :=
  ((sortIdxs_perm scores).nodup_iff).mpr (List.nodup_range _)

theorem keepTest_symm (boxes : List BBox) (classes : List ℤ) (t : ℚ) :
    Symmetric (fun i j => keepTest boxes classes t i j = true) := by
  intro i j h
  simp only [keepTest, Bool.or_eq_true, decide_eq_true_eq] at h ⊢
  rcases h with h | h
  · exact Or.inl (Ne.symm h)
  · exact Or.inr (iou_comm (boxes.getD j dbox) (boxes.getD i dbox) ▸ h)

theorem nms_keepTest_of_mem (boxes : List BBox) (scores : List ℚ) (classes : List ℤ)
    (t : ℚ) {i j : ℕ} (hi : i ∈ nms boxes scores classes t)
    (hj : j ∈ nms boxes scores classes t) (hij : i ≠ j) :
    keepTest boxes classes t i j = true :=
  (nmsLoopF_pairwise boxes classes t (sortIdxs scores).length (sortIdxs scores)).forall
    (keepTest_symm boxes classes t) hi hj hij

theorem nms_nodup (boxes : List BBox) (scores : List ℚ) (classes : List ℤ) (t : ℚ) :
    (nms boxes scores classes t).Nodup :=
  nmsLoopF_nodup boxes classes t _ _ (sortIdxs_nodup scores)

theorem nmsTsxGo_pairwise (t : ℚ) : ∀ (l sel : List YoloBox),
    sel.Pairwise (fun a b => iouTsx a b ≤ t) →
    (nmsTsxGo t sel l).Pairwise (fun a b => iouTsx a b ≤ t) := by
  intro l
  induction l with
  | nil => intro sel h; simpa [nmsTsxGo] using h
  | cons b rest ih =>
    intro sel h
    rw [nmsTsxGo]
    split_ifs with hall
    · apply ih
      rw [List.pairwise_append]
      refine ⟨h, List.pairwise_singleton _ _, ?_⟩
      intro s hs x hx
      rw [List.mem_singleton] at hx
      subst hx
      have hbs := List.all_eq_true.mp hall s hs
      rw [decide_eq_true_eq] at hbs
      rwa [iouTsx_comm]
    · exact ih sel h

theorem nmsTsx_pairwise (ys : List YoloBox) (u : ℚ) :
    (nmsTsx ys u).Pairwise (fun a b => iouTsx a b ≤ u) :=
  nmsTsxGo_pairwise u _ [] List.Pairwise.nil

theorem bestClass_ex : bestClass exArr 0 6 = ((0 : ℤ), 9/10) := by
  norm_num [bestClass, List.range', exArr, List.getD]

theorem decodeRow_ex :
    decodeRow exArr 6 (1/4) 0 = some (⟨75, 75, 125, 125⟩, 81/100, (0 : ℤ)) := by
  rw [decodeRow]
  norm_num [bestClass_ex, exArr, List.getD, BBox.mk.injEq]

theorem parseCandidates_ex :
    parseCandidates exArr 1 6 (1/4) = [(⟨75, 75, 125, 125⟩, 81/100, (0 : ℤ))] := by
  rw [parseCandidates]
  rw [show List.range 1 = [0] by simp [List.range_succ]]
  simp only [List.filterMap_cons, List.filterMap_nil, decodeRow_ex]

theorem sortIdxs_single (s : ℚ) : sortIdxs [s] = [0] := by
  simp [sortIdxs, List.insertionSort, List.orderedInsert, List.range_succ]

theorem nms_single (b : BBox) (s : ℚ) (c : ℤ) (t : ℚ) : nms [b] [s] [c] t = [0] := by
  rw [nms, sortIdxs_single]
  simp [nmsLoopF]

theorem toFixed_ex : toFixed 2 (87/100) = "0.87" := by
  have h87 : (⌊(87:ℚ)/100 * (10:ℚ) ^ (2:ℕ) + 1/2⌋) = 87 := by norm_num
  simp only [toFixed, h87]
  rfl

theorem labelOf_ex :
    labelOf ⟨7, some "person", 87/100, ⟨10, 20, 30, 40⟩⟩ = "person 0.87" := by
  simp only [labelOf, toFixed_ex]
  rfl

theorem parseOutput_ex :
    parseOutput exArr 1 6 (1/4) (45/100) 1 200 0 none =
      [{ cls := 0, name := none, conf := 81/100, xyxy := ⟨0, 75, 0, 125⟩ }] := by
  simp only [parseOutput, parseCandidates_ex, List.map_cons, List.map_nil]
  rw [nms_single]
  norm_num [scaleBack, dbox, nameLookup, List.getD, Detection.mk.injEq, BBox.mk.injEq]

/-! Claim theorems. -/

/-- C2 counterexample: the `nms` local to `YoloVideoAnnotator.tsx` ignores
classes. With two identical boxes of different classes, the lower-scoring one
is removed on account of a kept box of a different class (their IoU is 1). -/
theorem C2_counterexample_cross_class_suppression :
    nmsTsx [⟨0, 0, 10, 10, 9/10, 0⟩, ⟨0, 0, 10, 10, 8/10, 1⟩] (1/2) =
      [⟨0, 0, 10, 10, 9/10, 0⟩] ∧
    (⟨0, 0, 10, 10, 8/10, 1⟩ : YoloBox) ∉ ([⟨0, 0, 10, 10, 9/10, 0⟩] : List YoloBox) ∧
    (1/2 : ℚ) < iouTsx ⟨0, 0, 10, 10, 9/10, 0⟩ ⟨0, 0, 10, 10, 8/10, 1⟩ ∧
    (⟨0, 0, 10, 10, 9/10, 0⟩ : YoloBox).classId ≠
      (⟨0, 0, 10, 10, 8/10, 1⟩ : YoloBox).classId := by
  refine ⟨?_, by simp, by norm_num [iouTsx, areaY], by simp⟩
  norm_num [nmsTsx, nmsTsxGo, List.insertionSort, List.orderedInsert, iouTsx, areaY]

/-- C2 (amended): for the class-aware `nms` of `src/utils/nms.ts` (the one the
inference service uses) the claim holds: two distinct kept indices of the same
class have IoU at most `t`, and an index that is dropped is always dropped on
account of a kept index of the *same* class with IoU above `t`. The `nms`
local to `YoloVideoAnnotator.tsx` is class-agnostic: its kept set has pairwise
IoU at most `t` across *all* classes, and (per the counterexample) a candidate
can be suppressed by a kept box of a different class. -/
theorem C2_nms_class_soundness (boxes : List BBox) (scores : List ℚ) (classes : List ℤ)
    (t : ℚ) (i j k : ℕ) (ys : List YoloBox) (u : ℚ)
    (hi : i ∈ nms boxes scores classes t) (hj : j ∈ nms boxes scores classes t)
    (hij : i ≠ j) (hcls : classes.getD i 0 = classes.getD j 0)
    (hk : k ∈ sortIdxs scores) (hknot : k ∉ nms boxes scores classes t) :
    iou (boxes.getD i dbox) (boxes.getD j dbox) ≤ t ∧
    (∃ m ∈ nms boxes scores classes t,
      classes.getD m 0 = classes.getD k 0 ∧
        t < iou (boxes.getD m dbox) (boxes.getD k dbox)) ∧
    (nmsTsx ys u).Pairwise (fun a b => iouTsx a b ≤ u) := by
  refine ⟨?_, ?_, nmsTsx_pairwise ys u⟩
  · have h := nms_keepTest_of_mem boxes scores classes t hi hj hij
    simp only [keepTest, Bool.or_eq_true, decide_eq_true_eq] at h
    exact h.resolve_left (not_not.mpr hcls)
  · exact nmsLoopF_removed boxes classes t (sortIdxs scores).length (sortIdxs scores) k
      le_rfl hk hknot

/-- C2 witness: three same-class boxes, the first two disjoint (both kept), the
third identical to the first (dropped by it); plus the tsx variant at a
concrete list. -/
theorem C2_nms_class_soundness_witness :
    iou ([⟨0, 0, 1, 1⟩, ⟨5, 5, 6, 6⟩, ⟨0, 0, 1, 1⟩].getD 0 dbox)
        ([⟨0, 0, 1, 1⟩, ⟨5, 5, 6, 6⟩, ⟨0, 0, 1, 1⟩].getD 1 dbox) ≤ 1/2 ∧
    (∃ m ∈ nms [⟨0, 0, 1, 1⟩, ⟨5, 5, 6, 6⟩, ⟨0, 0, 1, 1⟩] [9/10, 8/10, 7/10] [0, 0, 0] (1/2),
      ([0, 0, 0] : List ℤ).getD m 0 = ([0, 0, 0] : List ℤ).getD 2 0 ∧
        (1/2 : ℚ) < iou ([⟨0, 0, 1, 1⟩, ⟨5, 5, 6, 6⟩, ⟨0, 0, 1, 1⟩].getD m dbox)
          ([⟨0, 0, 1, 1⟩, ⟨5, 5, 6, 6⟩, ⟨0, 0, 1, 1⟩].getD 2 dbox)) ∧
    (nmsTsx [⟨0, 0, 10, 10, 9/10, 0⟩] (1/2)).Pairwise (fun a b => iouTsx a b ≤ 1/2) := by
  have hnms : nms [⟨0, 0, 1, 1⟩, ⟨5, 5, 6, 6⟩, ⟨0, 0, 1, 1⟩] [9/10, 8/10, 7/10] [0, 0, 0] (1/2)
      = [0, 1] := by
    norm_num [nms, nmsLoopF, sortIdxs, List.insertionSort, List.orderedInsert,
      List.range_succ, keepTest, iou, boxArea, List.getD, dbox]
  have hsort : sortIdxs [(9:ℚ)/10, 8/10, 7/10] = [0, 1, 2] := by
    norm_num [sortIdxs, List.insertionSort, List.orderedInsert, List.range_succ, List.getD]
  exact C2_nms_class_soundness _ _ _ _ 0 1 2 _ _
    (by rw [hnms]; simp) (by rw [hnms]; simp) (by simp) rfl
    (by rw [hsort]; simp) (by rw [hnms]; simp)

/-- C7: the utils `nms` is idempotent on its own output: restricting the box,
score and class arrays to the kept indices and running `nms` again keeps every
index of the restricted input (and hence exactly as many boxes). -/
theorem C7_nms_idempotent (boxes : List BBox) (scores : List ℚ) (classes : List ℤ)
    (t : ℚ) (k : ℕ) (hk : k < (nms boxes scores classes t).length) :
    k ∈ nms ((nms boxes scores classes t).map (fun m => boxes.getD m dbox))
            ((nms boxes scores classes t).map (fun m => scores.getD m 0))
            ((nms boxes scores classes t).map (fun m => classes.getD m 0)) t ∧
    (nms ((nms boxes scores classes t).map (fun m => boxes.getD m dbox))
         ((nms boxes scores classes t).map (fun m => scores.getD m 0))
         ((nms boxes scores classes t).map (fun m => classes.getD m 0)) t).length
      = (nms boxes scores classes t).length := by
  set kept := nms boxes scores classes t with hkept
  set boxes2 := kept.map (fun m => boxes.getD m dbox) with hb2
  set scores2 := kept.map (fun m => scores.getD m 0) with hs2
  set classes2 := kept.map (fun m => classes.getD m 0) with hc2
  have hnd : kept.Nodup := by rw [hkept]; exact nms_nodup boxes scores classes t
  have hlen : scores2.length = kept.length := by simp [hs2]
  have hcompat : ∀ a ∈ sortIdxs scores2, ∀ b ∈ sortIdxs scores2, a ≠ b →
      keepTest boxes2 classes2 t a b = true := by
    intro a ha b hb hab
    rw [mem_sortIdxs scores2, hlen] at ha hb
    have hA : kept[a] ∈ nms boxes scores classes t := by
      rw [← hkept]; exact List.getElem_mem ha
    have hB : kept[b] ∈ nms boxes scores classes t := by
      rw [← hkept]; exact List.getElem_mem hb
    have hAB : kept[a] ≠ kept[b] := by
      intro he
      exact hab ((List.Nodup.getElem_inj_iff hnd).mp he)
    have e1 : boxes2.getD a dbox = boxes.getD kept[a] dbox := by
      rw [List.getD_eq_getElem boxes2 dbox (by simpa [hb2] using ha)]
      simp [hb2]
    have e2 : boxes2.getD b dbox = boxes.getD kept[b] dbox := by
      rw [List.getD_eq_getElem boxes2 dbox (by simpa [hb2] using hb)]
      simp [hb2]
    have e3 : classes2.getD a 0 = classes.getD kept[a] 0 := by
      rw [List.getD_eq_getElem classes2 0 (by simpa [hc2] using ha)]
      simp [hc2]
    have e4 : classes2.getD b 0 = classes.getD kept[b] 0 := by
      rw [List.getD_eq_getElem classes2 0 (by simpa [hc2] using hb)]
      simp [hc2]
    have ht : keepTest boxes2 classes2 t a b
        = keepTest boxes classes t kept[a] kept[b] := by
      simp only [keepTest, e1, e2, e3, e4]
    rw [ht]
    exact nms_keepTest_of_mem boxes scores classes t hA hB hAB
  have hid : nms boxes2 scores2 classes2 t = sortIdxs scores2 :=
    nmsLoopF_of_compat boxes2 classes2 t _ _ le_rfl (sortIdxs_nodup _) hcompat
  constructor
  · rw [hid, mem_sortIdxs scores2, hlen]
    exact hk
  · rw [hid, (sortIdxs_perm scores2).length_eq, List.length_range, hlen]

/-- C7 witness: a single kept box is kept again by the second pass. -/
theorem C7_nms_idempotent_witness :
    0 ∈ nms ((nms [⟨0, 0, 1, 1⟩] [1/2] [0] (1/2)).map
              (fun m => [(⟨0, 0, 1, 1⟩ : BBox)].getD m dbox))
            ((nms [⟨0, 0, 1, 1⟩] [1/2] [0] (1/2)).map (fun m => [(1:ℚ)/2].getD m 0))
            ((nms [⟨0, 0, 1, 1⟩] [1/2] [0] (1/2)).map (fun m => [(0:ℤ)].getD m 0)) (1/2) ∧
    (nms ((nms [⟨0, 0, 1, 1⟩] [1/2] [0] (1/2)).map
              (fun m => [(⟨0, 0, 1, 1⟩ : BBox)].getD m dbox))
         ((nms [⟨0, 0, 1, 1⟩] [1/2] [0] (1/2)).map (fun m => [(1:ℚ)/2].getD m 0))
         ((nms [⟨0, 0, 1, 1⟩] [1/2] [0] (1/2)).map (fun m => [(0:ℤ)].getD m 0)) (1/2)).length
      = (nms [⟨0, 0, 1, 1⟩] [1/2] [0] (1/2)).length :=
  C7_nms_idempotent [⟨0, 0, 1, 1⟩] [1/2] [0] (1/2) 0
    (by norm_num [nms, nmsLoopF, sortIdxs, List.insertionSort, List.orderedInsert,
      List.range_succ])

/-- C3 counterexample: the utils `iou` adds `1e-6` to the union, so even for
the well-formed unit square `a`, `iou(a,a)` is `1000000/1000001`, not `1`. -/
theorem C3_counterexample_iou_self :
    iou ⟨0, 0, 1, 1⟩ ⟨0, 0, 1, 1⟩ ≠ 1 ∧ wellFormed ⟨0, 0, 1, 1⟩ := by
  constructor
  · norm_num [iou, boxArea]
  · norm_num [wellFormed]

/-- C3 (amended): for well-formed boxes both IoU implementations lie in `[0,1]`
(the utils one strictly below 1); the component-local `iou` of
`YoloVideoAnnotator.tsx` satisfies `iou(a,a) = 1` exactly, while the utils
`iou` of `src/utils/nms.ts` yields `iou(a,a) = A/(A + 1e-6)` because of the
epsilon added to the union; degenerate zero-width or zero-height boxes yield
IoU `0` in both implementations. -/
theorem C3_iou_bounds (a b : BBox) (p q : YoloBox) (a' b' : BBox) (p' q' : YoloBox)
    (ha : wellFormed a) (hb : wellFormed b) (hp : wellFormedY p) (hq : wellFormedY q)
    (hdeg : a'.x2 = a'.x1 ∨ a'.y2 = a'.y1) (hdegp : p'.x2 = p'.x1 ∨ p'.y2 = p'.y1) :
    (0 ≤ iou a b ∧ iou a b < 1) ∧
    iou a a = boxArea a / (boxArea a + 1 / 1000000) ∧
    (0 ≤ iouTsx p q ∧ iouTsx p q ≤ 1) ∧
    iouTsx p p = 1 ∧
    iou a' b' = 0 ∧
    iouTsx p' q' = 0 :=
  ⟨iou_nonneg_lt_one a b ha hb, iou_self a ha, iouTsx_nonneg_le_one p q hp hq,
    iouTsx_self p hp, iou_degenerate a' b' hdeg, iouTsx_degenerate p' q' hdegp⟩

/-- C3 witness: the amended bounds instantiated at concrete boxes. -/
theorem C3_iou_bounds_witness :
    (0 ≤ iou ⟨0, 0, 2, 2⟩ ⟨1, 1, 3, 3⟩ ∧ iou ⟨0, 0, 2, 2⟩ ⟨1, 1, 3, 3⟩ < 1) ∧
    iou ⟨0, 0, 2, 2⟩ ⟨0, 0, 2, 2⟩ = boxArea ⟨0, 0, 2, 2⟩ / (boxArea ⟨0, 0, 2, 2⟩ + 1 / 1000000) ∧
    (0 ≤ iouTsx ⟨0, 0, 2, 2, 1, 0⟩ ⟨1, 1, 3, 3, 1, 0⟩ ∧
      iouTsx ⟨0, 0, 2, 2, 1, 0⟩ ⟨1, 1, 3, 3, 1, 0⟩ ≤ 1) ∧
    iouTsx ⟨0, 0, 2, 2, 1, 0⟩ ⟨0, 0, 2, 2, 1, 0⟩ = 1 ∧
    iou ⟨5, 5, 5, 9⟩ ⟨0, 0, 1, 1⟩ = 0 ∧
    iouTsx ⟨5, 5, 5, 9, 1, 0⟩ ⟨0, 0, 1, 1, 1, 0⟩ = 0 :=
  C3_iou_bounds ⟨0, 0, 2, 2⟩ ⟨1, 1, 3, 3⟩ ⟨0, 0, 2, 2, 1, 0⟩ ⟨1, 1, 3, 3, 1, 0⟩
    ⟨5, 5, 5, 9⟩ ⟨0, 0, 1, 1⟩ ⟨5, 5, 5, 9, 1, 0⟩ ⟨0, 0, 1, 1, 1, 0⟩
    (by norm_num [wellFormed]) (by norm_num [wellFormed]) (by norm_num [wellFormedY])
    (by norm_num [wellFormedY]) (Or.inl rfl) (Or.inl rfl)

/-- C4 counterexample: letterboxing a 1280×720 frame into 640×640 yields ratio
1/2 but padding `(0, 140)`, not `(0, 80)` as the claim's scenario states, and
under the actual padding the model-space box (100,100,200,200) maps back to
(200, −80, 400, 120), not (200, 40, 400, 240). -/
theorem C4_counterexample_letterbox_padding :
    letterboxGeom 1280 720 640 = (1/2, 0, 140) ∧
    ((0 : ℚ), (140 : ℚ)) ≠ ((0 : ℚ), (80 : ℚ)) ∧
    scaleBack ⟨100, 100, 200, 200⟩ (1/2) 0 140 = ⟨200, -80, 400, 120⟩ := by
  refine ⟨?_, by norm_num, ?_⟩
  · norm_num [letterboxGeom, jsRound]
  · norm_num [scaleBack, BBox.mk.injEq]

/-- C4 (amended): `scaleBack` exactly inverts the letterbox placement
`x ↦ x·r + d` for any nonzero ratio (so the model→native→model round trip is
the identity in exact arithmetic); letterboxing 1280×720 into 640×640 yields
ratio 1/2 and padding `(0, 140)`, under which (100,100,200,200) maps back to
(200, −80, 400, 120); with the parameters `(ratio 1/2, padding (0,80))` as
literally given in the claim, `scaleBack` maps (100,100,200,200) to
(200, 40, 400, 240). -/
theorem C4_scaleBack_inverse (b : BBox) (r dx dy : ℚ) (hr : r ≠ 0) :
    scaleBack ⟨b.x1 * r + dx, b.y1 * r + dy, b.x2 * r + dx, b.y2 * r + dy⟩ r dx dy = b ∧
    letterboxGeom 1280 720 640 = (1/2, 0, 140) ∧
    scaleBack ⟨100, 100, 200, 200⟩ (1/2) 0 140 = ⟨200, -80, 400, 120⟩ ∧
    scaleBack ⟨100, 100, 200, 200⟩ (1/2) 0 80 = ⟨200, 40, 400, 240⟩ := by
  refine ⟨?_, ?_, ?_, ?_⟩
  · obtain ⟨x1, y1, x2, y2⟩ := b
    simp [scaleBack, BBox.mk.injEq, add_sub_cancel_right, mul_div_cancel_right₀, hr]
  · norm_num [letterboxGeom, jsRound]
  · norm_num [scaleBack, BBox.mk.injEq]
  · norm_num [scaleBack, BBox.mk.injEq]

/-- C4 witness: the inversion at a concrete box and ratio. -/
theorem C4_scaleBack_inverse_witness :
    scaleBack ⟨1 * 2 + 5, 2 * 2 + 7, 3 * 2 + 5, 4 * 2 + 7⟩ 2 5 7 = ⟨1, 2, 3, 4⟩ ∧
    letterboxGeom 1280 720 640 = (1/2, 0, 140) ∧
    scaleBack ⟨100, 100, 200, 200⟩ (1/2) 0 140 = ⟨200, -80, 400, 120⟩ ∧
    scaleBack ⟨100, 100, 200, 200⟩ (1/2) 0 80 = ⟨200, 40, 400, 240⟩ :=
  C4_scaleBack_inverse ⟨1, 2, 3, 4⟩ 2 5 7 (by norm_num)

theorem busyStep_inv (s : BusyState) (e : BusyEv) (h : busyInv s) :
    busyInv (busyStep s e).1 := by
  unfold busyInv at h ⊢
  cases e with
  | start =>
    by_cases hb : s.busy = true
    · simp only [busyStep, hb, if_true] at h ⊢
      exact h
    · simp [busyStep, hb] at h ⊢
      omega
  | finish =>
    simp only [busyStep]
    simp only [show (false = true) = False by simp, if_false]
    split_ifs at h <;> omega

theorem busyRun_inv (evs : List BusyEv) (s : BusyState) (h : busyInv s) :
    busyInv (busyRun s evs) := by
  induction evs generalizing s with
  | nil => exact h
  | cons e evs ih => exact ih _ (busyStep_inv s e h)

/-- C1: the busy flag enforces at most one inference call in flight — over any
sequence of tick-start and inference-settled events from the initial state,
`inFlight` never exceeds 1; and a tick arriving while the flag is set returns
with the state unchanged and dispatches nothing, in the generic busy-flag
model as well as in both embedded tick handlers (`processCurrentFrame` of the
seek-driven hook and `captureAndProcess` of the clock-driven hook). -/
theorem C1_at_most_one_inference_in_flight (evs : List BusyEv) (b : BusyState)
    (dur fps msize ow oh : ℚ) (res res2 : InferResult) (s : SeekState) (c : ClockState)
    (hb : b.busy = true) (hs : s.processing = true) (hc : c.processing = true) :
    (busyRun ⟨false, 0⟩ evs).inFlight ≤ 1 ∧
    busyStep b .start = (b, false) ∧
    (seekTick dur fps msize ow oh res s).2 = false ∧
    (clockTick fps msize ow oh dur res2 c).2 = false := by
  refine ⟨?_, ?_, ?_, ?_⟩
  · have h := busyRun_inv evs ⟨false, 0⟩ (by simp [busyInv])
    unfold busyInv at h
    split_ifs at h <;> omega
  · simp [busyStep, hb]
  · rw [seekTick.eq_def]
    split_ifs with h1 h2 h3 <;> rfl
  · rw [clockTick.eq_def]
    split_ifs with h1 <;> rfl

/-- C1 witness: concrete event trace and concrete busy states. -/
theorem C1_at_most_one_inference_in_flight_witness :
    (busyRun ⟨false, 0⟩ [.start, .start, .finish]).inFlight ≤ 1 ∧
    busyStep ⟨true, 1⟩ .start = (⟨true, 1⟩, false) ∧
    (seekTick 10 1 320 640 360 .err ⟨true, true, 0, 0, []⟩).2 = false ∧
    (clockTick 1 320 640 360 10 .err ⟨false, false, true, 0, [], 0⟩).2 = false :=
  C1_at_most_one_inference_in_flight [.start, .start, .finish] ⟨true, 1⟩
    10 1 320 640 360 .err .err ⟨true, true, 0, 0, []⟩ ⟨false, false, true, 0, [], 0⟩
    rfl rfl rfl

/-- C5: inference-failure policy per scheduler. In the seek-driven hook an
error tick from a running, idle, mid-video state stops the run
(`running := false`) and a stopped run never dispatches again; in the
clock-driven hook the same error leaves the state unchanged (skip-and-log)
and a subsequent successful tick still dispatches. -/
theorem C5_failure_policy (dur fps msize ow oh : ℚ) (dets : List Detection)
    (res2 : InferResult) (s s2 : SeekState) (c : ClockState)
    (h1 : s.running = true) (h2 : s.processing = false) (h3 : dur ≠ 0)
    (h4 : s.time < dur) (hstop : s2.running = false)
    (h5 : c.paused = false) (h6 : c.ended = false) (h7 : c.processing = false) :
    seekTick dur fps msize ow oh .err s = ({ s with running := false }, true) ∧
    seekTick dur fps msize ow oh res2 s2 = (s2, false) ∧
    clockTick fps msize ow oh dur .err c = (c, true) ∧
    (clockTick fps msize ow oh dur (.ok dets) c).2 = true := by
  refine ⟨?_, ?_, ?_, ?_⟩
  · obtain ⟨r, p, tm, pg, ld⟩ := s
    simp only at h1 h2 h4
    subst h1
    subst h2
    rw [seekTick.eq_def]
    rw [if_neg (by simp), if_neg h3, if_neg (not_le.mpr h4), if_neg (by simp)]
  · rw [seekTick.eq_def, if_pos hstop]
  · rw [clockTick.eq_def, if_neg (by simp [h5, h6]), if_neg (by simp [h7])]
  · rw [clockTick.eq_def, if_neg (by simp [h5, h6]), if_neg (by simp [h7])]

/-- C5 witness: the failure policies at concrete run states. -/
theorem C5_failure_policy_witness :
    seekTick 10 1 320 640 360 .err ⟨true, false, 0, 0, []⟩ = (⟨false, false, 0, 0, []⟩, true) ∧
    seekTick 10 1 320 640 360 .err ⟨false, false, 0, 0, []⟩ = (⟨false, false, 0, 0, []⟩, false) ∧
    clockTick 1 320 640 360 10 .err ⟨false, false, false, 0, [], 0⟩ =
      (⟨false, false, false, 0, [], 0⟩, true) ∧
    (clockTick 1 320 640 360 10 (.ok []) ⟨false, false, false, 0, [], 0⟩).2 = true :=
  C5_failure_policy 10 1 320 640 360 [] .err ⟨true, false, 0, 0, []⟩
    ⟨false, false, 0, 0, []⟩ ⟨false, false, false, 0, [], 0⟩
    rfl rfl (by norm_num) (by norm_num) rfl rfl rfl rfl

/-- C6: a failed model load is caught — `loadSession` leaves the session null
and returns normally (it never produces an error for any input), and a
subsequent `runOnnx` call with no session returns the mock detections rather
than throwing. -/
theorem C6_degraded_mode (st st3 : SessionState) (url url3 : String) (e : String)
    (f f3 : String → Except String Session) (w h : ℚ) (opts : Opts) (rnd : ℕ → ℚ)
    (engine : Except String (ℕ → ℚ)) (N C : ℕ)
    (hnone : st.session = none) (hf : f url = .error e) :
    loadSession st url f = .ok { st with session := none } ∧
    (loadSession st3 url3 f3).isOk = true ∧
    runOnnx { st with session := none } w h opts rnd engine N C =
      .ok (generateMockDetections w h opts rnd) := by
  refine ⟨?_, ?_, ?_⟩
  · rw [loadSession.eq_def, if_neg (by simp [hnone]), hf]
  · rw [loadSession.eq_def]
    by_cases hs3 : st3.session.isSome
    · rw [if_pos hs3]
      rfl
    · rw [if_neg hs3]
      cases f3 url3 <;> rfl
  · rw [runOnnx.eq_def]

/-- C6 witness: a concrete failing load and a concrete degraded inference. -/
theorem C6_degraded_mode_witness :
    loadSession ⟨none, "images", 640⟩ "/models/yolo.onnx" (fun _ => .error "fetch failed")
      = .ok { (⟨none, "images", 640⟩ : SessionState) with session := none } ∧
    (loadSession ⟨some ⟨"images", 640⟩, "images", 640⟩ "/models/yolo.onnx"
      (fun _ => .error "fetch failed")).isOk = true ∧
    runOnnx { (⟨none, "images", 640⟩ : SessionState) with session := none } 1280 720
      ⟨1/4, 45/100, none⟩ (fun _ => 0) (.ok (fun _ => 0)) 1 6 =
      .ok (generateMockDetections 1280 720 ⟨1/4, 45/100, none⟩ (fun _ => 0)) :=
  C6_degraded_mode ⟨none, "images", 640⟩ ⟨some ⟨"images", 640⟩, "images", 640⟩
    "/models/yolo.onnx" "/models/yolo.onnx" "fetch failed"
    (fun _ => .error "fetch failed") (fun _ => .error "fetch failed")
    1280 720 ⟨1/4, 45/100, none⟩ (fun _ => 0) (.ok (fun _ => 0)) 1 6 rfl rfl

/-- C9: once a session exists, `loadSession` is a no-op — it returns with the
state unchanged for every model URL and every outcome of the load attempt, so
a different URL is silently ignored. -/
theorem C9_loadSession_noop (st : SessionState) (sess : Session) (url : String)
    (f : String → Except String Session) (hs : st.session = some sess) :
    loadSession st url f = .ok st := by
  rw [loadSession.eq_def, if_pos (by simp [hs])]

/-- C9 witness: a loaded session ignores a second load with a different URL
whose attempt would even fail. -/
theorem C9_loadSession_noop_witness :
    loadSession ⟨some ⟨"images", 640⟩, "images", 640⟩ "/models/other.onnx"
      (fun _ => .error "corrupt") = .ok ⟨some ⟨"images", 640⟩, "images", 640⟩ :=
  C9_loadSession_noop ⟨some ⟨"images", 640⟩, "images", 640⟩ ⟨"images", 640⟩
    "/models/other.onnx" (fun _ => .error "corrupt") rfl

/-- C10: every detection produced by `parseOutput` has all four coordinates
clamped to be non-negative, and (since the clamp is applied per coordinate
after the inverse letterbox, with no re-check of `x2 > x1` or `y2 > y1`) a
candidate lying entirely in the padding region comes out with zero width: the
example row decodes to the box (75,75,125,125), and with `dx = 200` it maps
back to (−125,75,−75,125) which is clamped to (0,75,0,125). -/
theorem C10_parseOutput_clamped (arr : ℕ → ℚ) (N C : ℕ) (ct it r dx dy : ℚ)
    (names : Option (List String)) (d : Detection)
    (hd : d ∈ parseOutput arr N C ct it r dx dy names) :
    (0 ≤ d.xyxy.x1 ∧ 0 ≤ d.xyxy.y1 ∧ 0 ≤ d.xyxy.x2 ∧ 0 ≤ d.xyxy.y2) ∧
    parseOutput exArr 1 6 (1/4) (45/100) 1 200 0 none =
      [{ cls := 0, name := none, conf := 81/100, xyxy := ⟨0, 75, 0, 125⟩ }] := by
  constructor
  · simp only [parseOutput] at hd
    obtain ⟨k, hk, rfl⟩ := List.mem_map.mp hd
    exact ⟨le_max_left _ _, le_max_left _ _, le_max_left _ _, le_max_left _ _⟩
  · exact parseOutput_ex

/-- C10 witness: the clamp bounds at the concrete zero-width output. -/
theorem C10_parseOutput_clamped_witness :
    ((0:ℚ) ≤ (⟨0, 75, 0, 125⟩ : BBox).x1 ∧ (0:ℚ) ≤ (⟨0, 75, 0, 125⟩ : BBox).y1 ∧
      (0:ℚ) ≤ (⟨0, 75, 0, 125⟩ : BBox).x2 ∧ (0:ℚ) ≤ (⟨0, 75, 0, 125⟩ : BBox).y2) ∧
    parseOutput exArr 1 6 (1/4) (45/100) 1 200 0 none =
      [{ cls := 0, name := none, conf := 81/100, xyxy := ⟨0, 75, 0, 125⟩ }] :=
  C10_parseOutput_clamped exArr 1 6 (1/4) (45/100) 1 200 0 none
    ⟨0, none, 81/100, ⟨0, 75, 0, 125⟩⟩ (by rw [parseOutput_ex]; simp)

/-- C8 counterexample: at confidence 0.87 the chip label drawn by
`drawDetections` is `"person 0.87"` — `conf.toFixed(2)`, a raw fraction with
two decimals — and the percentage-with-one-decimal rendering `"87.0"` occurs
nowhere in it. -/
theorem C8_counterexample_label_format :
    labelOf ⟨7, some "person", 87/100, ⟨10, 20, 30, 40⟩⟩ = "person 0.87" ∧
    DrawCmd.fillText "person 0.87" (10 + 4) (max 10 (20 - 4)) ∈
      drawDetections 640 360 (fun _ => 50)
        [⟨7, some "person", 87/100, ⟨10, 20, 30, 40⟩⟩] ∧
    subStr "87.0".toList "person 0.87".toList = false := by
  refine ⟨labelOf_ex, ?_, by decide⟩
  simp [drawDetections, drawOne, labelOf_ex]

/-- C8 (amended): `drawDetections` issues a full-canvas clear as its first
command (no accumulation), and for every detection draws a label chip
positioned above the box and clamped to the top edge, whose text is the
name-or-id followed by the confidence rendered by `toFixed(2)` as a raw
fraction with two decimals (not as a percentage with one decimal). -/
theorem C8_drawDetections_clears_and_labels (W H : ℚ) (measure : String → ℚ)
    (boxes : List Detection) (d : Detection) (hd : d ∈ boxes) :
    (drawDetections W H measure boxes).head? = some (.clearRect 0 0 W H) ∧
    DrawCmd.fillRect d.xyxy.x1 (max 0 (d.xyxy.y1 - 16)) (measure (labelOf d) + 4 * 2) 16 ∈
      drawDetections W H measure boxes ∧
    DrawCmd.fillText (labelOf d) (d.xyxy.x1 + 4) (max 10 (d.xyxy.y1 - 4)) ∈
      drawDetections W H measure boxes := by
  have hsub : ∀ cmd ∈ drawOne measure d, cmd ∈ drawDetections W H measure boxes := by
    intro cmd hc
    unfold drawDetections
    refine List.mem_cons_of_mem _ (List.mem_cons_of_mem _ (List.mem_cons_of_mem _ ?_))
    exact List.mem_flatten.mpr ⟨drawOne measure d, List.mem_map_of_mem _ hd, hc⟩
  refine ⟨rfl, ?_, ?_⟩
  · exact hsub _ (by simp [drawOne])
  · exact hsub _ (by simp [drawOne])

/-- C8 witness: the clear and the chip commands at a concrete detection. -/
theorem C8_drawDetections_clears_and_labels_witness :
    (drawDetections 640 360 (fun _ => 50)
        [⟨7, some "person", 87/100, ⟨10, 20, 30, 40⟩⟩]).head?
      = some (.clearRect 0 0 640 360) ∧
    DrawCmd.fillRect 10 (max 0 (20 - 16))
        (50 + 4 * 2) 16 ∈
      drawDetections 640 360 (fun _ => 50)
        [⟨7, some "person", 87/100, ⟨10, 20, 30, 40⟩⟩] ∧
    DrawCmd.fillText (labelOf ⟨7, some "person", 87/100, ⟨10, 20, 30, 40⟩⟩)
        (10 + 4) (max 10 (20 - 4)) ∈
      drawDetections 640 360 (fun _ => 50)
        [⟨7, some "person", 87/100, ⟨10, 20, 30, 40⟩⟩] :=
  C8_drawDetections_clears_and_labels 640 360 (fun _ => 50)
    [⟨7, some "person", 87/100, ⟨10, 20, 30, 40⟩⟩]
    ⟨7, some "person", 87/100, ⟨10, 20, 30, 40⟩⟩ (by simp)

end DeepSilk
